import Mathlib

/-!
Verification of the BlogSpark stateful prompt-generation pipeline
(src/blogspark.py) against its specification.

The embedding models Python JSON-like values with `JValue`, the persisted
state file with `FileState`, and the external generation capability as a
function `gen : String → String` (spec section 6 treats it as the sole
abstract collaborator; `generate_content` never raises and returns either
model text or an error-sentinel string, so a plain function is faithful).
Fallible Python operations (item assignment, attribute access, iteration)
are modelled with `Except String`, the error string naming the Python
exception class that would be raised.
-/

set_option maxRecDepth 8000

namespace BlogSpark

/-- Sequencing of fallible steps (exception propagation): run `x`; on
success continue with `f`, otherwise propagate the exception. -/
def eb {α β : Type} (x : Except String α) (f : α → Except String β) : Except String β :=
  match x with
  | .error e => .error e
  | .ok a => f a

/-- Sequencing of a partial primitive: `none` raises the given exception,
`some` continues. -/
def ob {α β : Type} (x : Option α) (err : String) (f : α → Except String β) :
    Except String β :=
  match x with
  | none => .error err
  | some a => f a

theorem eb_ok {α β : Type} (a : α) (f : α → Except String β) : eb (.ok a) f = f a := rfl

theorem ob_some {α β : Type} (a : α) (err : String) (f : α → Except String β) :
    ob (some a) err f = f a := rfl

theorem eb_ok_iff {α β : Type} (x : Except String α) (f : α → Except String β) (b : β) :
    eb x f = .ok b ↔ ∃ a, x = .ok a ∧ f a = .ok b := by
  cases x <;> simp [eb]

theorem ob_ok_iff {α β : Type} (x : Option α) (err : String) (f : α → Except String β)
    (b : β) : ob x err f = .ok b ↔ ∃ a, x = some a ∧ f a = .ok b := by
  cases x <;> simp [ob]

/-- A Python value as produced by `json.loads` and manipulated by the agent:
None, bool, int, str, list, dict (dicts as insertion-ordered association
lists with unique keys, as Python dicts are). Floats are not modelled; the
JSON parser below rejects float literals. -/
inductive JValue where
  | jnull
  | jbool (b : Bool)
  | jnum (n : Int)
  | jstr (s : String)
  | jarr (xs : List JValue)
  | jobj (fields : List (String × JValue))

mutual

/-- Structural equality on `JValue`, modelling Python `==` on JSON data
(deep equality; the Python `1 == True` aliasing is not modelled). -/
def jbeq : JValue → JValue → Bool
  | .jnull, .jnull => true
  | .jbool a, .jbool b => a == b
  | .jnum a, .jnum b => a == b
  | .jstr a, .jstr b => a == b
  | .jarr as, .jarr bs => jbeqL as bs
  | .jobj afs, .jobj bfs => jbeqF afs bfs
  | _, _ => false

/-- Elementwise equality of Python lists. -/
def jbeqL : List JValue → List JValue → Bool
  | [], [] => true
  | a :: as, b :: bs => jbeq a b && jbeqL as bs
  | _, _ => false

/-- Fieldwise equality of Python dicts (order-sensitive; the states and
intents in this development keep fields in a fixed order, as dict literals
and `json.loads` do). -/
def jbeqF : List (String × JValue) → List (String × JValue) → Bool
  | [], [] => true
  | (ka, va) :: as, (kb, vb) :: bs => ka == kb && jbeq va vb && jbeqF as bs
  | _, _ => false

end

mutual

/-- `jbeq` is reflexive. -/
def jbeq_refl : ∀ v : JValue, jbeq v v = true
  | .jnull => rfl
  | .jbool b => by simp [jbeq]
  | .jnum n => by simp [jbeq]
  | .jstr s => by simp [jbeq]
  | .jarr xs => by simp [jbeq, jbeqL_refl xs]
  | .jobj fs => by simp [jbeq, jbeqF_refl fs]

/-- `jbeqL` is reflexive. -/
def jbeqL_refl : ∀ l : List JValue, jbeqL l l = true
  | [] => rfl
  | x :: xs => by simp [jbeqL, jbeq_refl x, jbeqL_refl xs]

/-- `jbeqF` is reflexive. -/
def jbeqF_refl : ∀ l : List (String × JValue), jbeqF l l = true
  | [] => rfl
  | (k, v) :: xs => by simp [jbeqF, jbeq_refl v, jbeqF_refl xs]

end

/-- Python truthiness (`if x:`) on the modelled values. -/
def pyTruthy : JValue → Bool
  | .jnull => false
  | .jbool b => b
  | .jnum n => n != 0
  | .jstr s => s != ""
  | .jarr xs => !xs.isEmpty
  | .jobj fs => !fs.isEmpty

/-- First binding of a key in a dict, if present. -/
def dictFind : List (String × JValue) → String → Option JValue
  | [], _ => none
  | (k', v) :: rest, k => if k' = k then some v else dictFind rest k

/-- `dict.get(k, d)`: the bound value, or the default when the key is
absent. -/
def dictFindD (fs : List (String × JValue)) (k : String) (d : JValue) : JValue :=
  (dictFind fs k).getD d

/-- `k in dict` on the key list. -/
def dictHasKey (fs : List (String × JValue)) (k : String) : Bool :=
  (dictFind fs k).isSome

/-- `d[k] = v` on a dict: overwrite in place if the key exists (keeping its
position, as Python dicts do), otherwise append the binding at the end. -/
def dictSet : List (String × JValue) → String → JValue → List (String × JValue)
  | [], k, v => [(k, v)]
  | (k', v') :: rest, k, v =>
    if k' = k then (k, v) :: rest else (k', v') :: dictSet rest k v

/-- `x[k] = v` on a Python value: succeeds only for dicts; any other value
raises TypeError (str/int/list do not support string-key item assignment). -/
def setItem (v : JValue) (k : String) (x : JValue) : Option JValue :=
  match v with
  | .jobj fs => some (.jobj (dictSet fs k x))
  | _ => none

/-- Python list membership `x in l` (element `==` scan). -/
def pyMem (x : JValue) : List JValue → Bool
  | [] => false
  | y :: rest => jbeq x y || pyMem x rest

/-- Substring scan used for Python `sub in s` on strings. -/
def subScan : List Char → List Char → Bool
  | needle, [] => needle.isEmpty
  | needle, c :: rest => needle.isPrefixOf (c :: rest) || subScan needle rest

/-- Python `x in container`: list membership, dict key membership, substring
test on strings; TypeError on unhashable dict probes and non-containers. -/
def pyIn (x cont : JValue) : Except String Bool :=
  match cont with
  | .jarr xs => .ok (pyMem x xs)
  | .jobj fs =>
    match x with
    | .jstr k => .ok (dictHasKey fs k)
    | .jarr _ => .error "TypeError: unhashable type"
    | .jobj _ => .error "TypeError: unhashable type"
    | _ => .ok false
  | .jstr s =>
    match x with
    | .jstr sub => .ok (subScan sub.data s.data)
    | _ => .error "TypeError: a string is required"
  | _ => .error "TypeError: argument is not a container"

/-- `v.get(k, d)`: dict attribute access; AttributeError on non-dicts. -/
def pyGet (v : JValue) (k : String) (d : JValue) : Except String JValue :=
  match v with
  | .jobj fs => .ok (dictFindD fs k d)
  | _ => .error "AttributeError"

/-- `v[k]` with a string key: KeyError when absent, TypeError on non-dicts. -/
def getItem (v : JValue) (k : String) : Except String JValue :=
  match v with
  | .jobj fs =>
    match dictFind fs k with
    | some x => .ok x
    | none => .error "KeyError"
  | _ => .error "TypeError"

/-- ASCII whitespace as recognised by Python `str.strip()` (space, tab,
newline, carriage return, vertical tab, form feed; non-ASCII whitespace is
not modelled). -/
def isPySpace (c : Char) : Bool :=
  c = ' ' || c = '\t' || c = '\n' || c = '\r' || c = Char.ofNat 11 || c = Char.ofNat 12

/-- Python `str.strip()`: remove leading and trailing whitespace. -/
def pyStrip (s : String) : String :=
  ⟨((s.data.dropWhile isPySpace).reverse.dropWhile isPySpace).reverse⟩

/-- Python `str.lower()` (ASCII case mapping). -/
def pyLower (s : String) : String :=
  ⟨s.data.map Char.toLower⟩

/-- JSON whitespace accepted between tokens by `json.loads`. -/
def isJsonWs (c : Char) : Bool :=
  c = ' ' || c = '\t' || c = '\n' || c = '\r'

/-- Skip JSON inter-token whitespace. -/
def skipWs (cs : List Char) : List Char :=
  cs.dropWhile isJsonWs

/-- Opening brace character (written numerically throughout). -/
def braceOpen : Char := Char.ofNat 123

/-- Closing brace character. -/
def braceClose : Char := Char.ofNat 125

/-- Parse the body of a JSON string literal after its opening quote,
returning the decoded string and the remaining input. Supported escapes:
quote, backslash, slash, n, t, r, b, f. `\uXXXX` escapes are not modelled
(the parser fails on them, a documented simplification). -/
def parseStringBody : Nat → List Char → Option (String × List Char)
  | 0, _ => none
  | _ + 1, [] => none
  | fuel + 1, c :: rest =>
    if c = '"' then some ("", rest)
    else if c = '\\' then
      match rest with
      | [] => none
      | e :: rest2 =>
        let esc : Option Char :=
          if e = '"' then some '"'
          else if e = '\\' then some '\\'
          else if e = '/' then some '/'
          else if e = 'n' then some '\n'
          else if e = 't' then some '\t'
          else if e = 'r' then some '\r'
          else if e = 'b' then some (Char.ofNat 8)
          else if e = 'f' then some (Char.ofNat 12)
          else none
        match esc with
        | none => none
        | some ch =>
          match parseStringBody fuel rest2 with
          | none => none
          | some (s, rem) => some (⟨ch :: s.data⟩, rem)
    else
      match parseStringBody fuel rest with
      | none => none
      | some (s, rem) => some (⟨c :: s.data⟩, rem)

/-- Numeric value of a list of decimal digit characters. -/
def digitsVal (ds : List Char) : Nat :=
  ds.foldl (fun a c => a * 10 + (c.toNat - 48)) 0

/-- Parse a JSON integer literal (optional minus sign, then digits). Float
literals (a following dot or exponent) make the parse fail: floats are not
modelled, and no input used in this development contains one. -/
def parseNum (cs : List Char) : Option (JValue × List Char) :=
  let p : Bool × List Char := match cs with
    | '-' :: r => (true, r)
    | _ => (false, cs)
  let ds := p.2.takeWhile Char.isDigit
  let rest := p.2.dropWhile Char.isDigit
  if ds.isEmpty then none
  else
    let v : JValue := .jnum (if p.1 then -(digitsVal ds : Int) else (digitsVal ds : Int))
    match rest with
    | [] => some (v, [])
    | c :: _ => if c = '.' || c = 'e' || c = 'E' then none else some (v, rest)

mutual

/-- Recursive-descent JSON value parser (fuel-indexed so the recursion is
structural and kernel-reducible). Models `json.loads` grammar: objects,
arrays, strings, integers, true/false/null. -/
def parseVal (fuel : Nat) (cs : List Char) : Option (JValue × List Char) :=
  match fuel with
  | 0 => none
  | f + 1 =>
    match skipWs cs with
    | [] => none
    | c :: rest =>
      if c = braceOpen then parseObj f (skipWs rest)
      else if c = '[' then parseArr f (skipWs rest)
      else if c = '"' then
        match parseStringBody (rest.length + 1) rest with
        | none => none
        | some (s, rem) => some (.jstr s, rem)
      else if c = 't' then
        match rest with
        | 'r' :: 'u' :: 'e' :: rem => some (.jbool true, rem)
        | _ => none
      else if c = 'f' then
        match rest with
        | 'a' :: 'l' :: 's' :: 'e' :: rem => some (.jbool false, rem)
        | _ => none
      else if c = 'n' then
        match rest with
        | 'u' :: 'l' :: 'l' :: rem => some (.jnull, rem)
        | _ => none
      else parseNum (c :: rest)

/-- Parse an object after its opening brace (and whitespace): either an
immediate closing brace, or a member list. -/
def parseObj (fuel : Nat) (cs : List Char) : Option (JValue × List Char) :=
  match fuel with
  | 0 => none
  | f + 1 =>
    match cs with
    | [] => none
    | c :: rest =>
      if c = braceClose then some (.jobj [], rest)
      else parseMembers f [] (c :: rest)

/-- Parse one or more `"key": value` members. Duplicate keys overwrite the
earlier value in place, as Python dict construction does. -/
def parseMembers (fuel : Nat) (acc : List (String × JValue)) (cs : List Char) :
    Option (JValue × List Char) :=
  match fuel with
  | 0 => none
  | f + 1 =>
    match cs with
    | '"' :: rest =>
      match parseStringBody (rest.length + 1) rest with
      | none => none
      | some (k, rem) =>
        match skipWs rem with
        | ':' :: rem2 =>
          match parseVal f (skipWs rem2) with
          | none => none
          | some (v, rem3) =>
            match skipWs rem3 with
            | ',' :: rem4 => parseMembers f (dictSet acc k v) (skipWs rem4)
            | cb :: rem4 =>
              if cb = braceClose then some (.jobj (dictSet acc k v), rem4) else none
            | [] => none
        | _ => none
    | _ => none

/-- Parse an array after its opening bracket (and whitespace). -/
def parseArr (fuel : Nat) (cs : List Char) : Option (JValue × List Char) :=
  match fuel with
  | 0 => none
  | f + 1 =>
    match cs with
    | [] => none
    | c :: rest =>
      if c = ']' then some (.jarr [], rest)
      else parseElems f [] (c :: rest)

/-- Parse one or more array elements. -/
def parseElems (fuel : Nat) (acc : List JValue) (cs : List Char) :
    Option (JValue × List Char) :=
  match fuel with
  | 0 => none
  | f + 1 =>
    match parseVal f cs with
    | none => none
    | some (v, rem) =>
      match skipWs rem with
      | ',' :: rem2 => parseElems f (acc ++ [v]) (skipWs rem2)
      | ']' :: rem2 => some (.jarr (acc ++ [v]), rem2)
      | _ => none

end

/-- `json.loads`: parse a complete JSON document; `none` models the
`json.JSONDecodeError` raised on malformed input (including trailing
non-whitespace). -/
def json_loads (s : String) : Option JValue :=
  match parseVal (s.length + 1) s.data with
  | none => none
  | some (v, rem) => if skipWs rem = [] then some v else none

/-! ## Rendering helpers used by f-string interpolation -/

/-- Python `repr`, to the given structural depth (fuel), as interpolated by
f-strings for lists (`Last Prompts: {history_topics}`). String escaping
inside `repr` is not modelled; the result only feeds prompt text, which no
claim inspects. -/
def pyReprF : Nat → JValue → String
  | _, .jnull => "None"
  | _, .jbool true => "True"
  | _, .jbool false => "False"
  | _, .jnum n => toString n
  | _, .jstr s => "'" ++ s ++ "'"
  | 0, _ => "..."
  | f + 1, .jarr xs => "[" ++ String.intercalate ", " (xs.map (pyReprF f)) ++ "]"
  | f + 1, .jobj fs =>
    "\x7b" ++
      String.intercalate ", " (fs.map (fun p => "'" ++ p.1 ++ "': " ++ pyReprF f p.2)) ++
    "\x7d"

/-- Python `str(v)` as used by f-string interpolation: strings verbatim,
everything else via `repr`. -/
def pyStr (v : JValue) : String :=
  match v with
  | .jstr s => s
  | _ => pyReprF 100 v

/-- A string element of a joined list, or the TypeError `str.join` raises on
non-string items. -/
def strOfJ : JValue → Except String String
  | .jstr s => .ok s
  | _ => .error "TypeError: sequence item expected str instance"

/-- `', '.join(v)` for a list value; joining a non-list container is
modelled as TypeError (iterating a plain string character-wise is not
modelled; no reachable state in this development joins one). -/
def joinComma (v : JValue) : Except String String :=
  match v with
  | .jarr xs =>
    match xs.mapM strOfJ with
    | .error e => .error e
    | .ok ss => .ok (String.intercalate ", " ss)
  | _ => .error "TypeError"

/-! ## The persisted state store (blogspark.py lines 17-25, 44-53) -/

/-- The persisted state resource (`agent_state.json`). `missing` models an
absent file (opening raises FileNotFoundError); `unreadable` models a file
that exists but cannot be read (opening raises PermissionError);
`content s` holds raw file text to be parsed; `doc v` is a file written by
`save_state`, whose text is the `json.dump` serialization of `v` and parses
back to `v` (the Python JSON round-trip). -/
inductive FileState where
  | missing
  | unreadable
  | content (text : String)
  | doc (v : JValue)

/-- `load_state` (lines 44-49): return the parsed state document, or `none`
for the two caught exception classes (FileNotFoundError on a missing file,
json.JSONDecodeError on malformed text). A PermissionError from an
unreadable file is not in the `except` clause and propagates. -/
def load_state (f : FileState) : Except String (Option JValue) :=
  match f with
  | .missing => .ok none
  | .unreadable => .error "PermissionError"
  | .content text => .ok (json_loads text)
  | .doc v => .ok (some v)

/-- The default AgentState document built in `__init__` (lines 20-24):
empty history, empty niches, default user preferences. Field order is the
dict literal's insertion order. -/
def defaultStateJ : JValue :=
  .jobj [("history", .jarr []),
         ("niches", .jarr []),
         ("user_preferences", .jobj [("tone", .jstr "friendly"), ("complexity", .jstr "medium")])]

/-- Agent construction (lines 17-25): load the state; if the result is
falsy (None from a caught load failure, or a loaded empty document),
replace it with the defaults and persist them. Returns the in-memory state
and the resulting file. -/
def agent_init (f : FileState) : Except String (JValue × FileState) :=
  match load_state f with
  | .error e => .error e
  | .ok loaded =>
    let st := loaded.getD .jnull
    if pyTruthy st then .ok (st, f)
    else .ok (defaultStateJ, .doc defaultStateJ)

/-! ## Intent Extractor (blogspark.py lines 55-71) -/

/-- The intent-extraction instruction prompt (lines 56-65), with the raw
user input interpolated. -/
def intent_prompt (user_input : String) : String :=
  "\n        Analyze the user's query to extract:\n        1. Core topic (e.g., \"sustainability,\" \"remote work\")\n        2. Desired tone (e.g., \"inspirational,\" \"analytical\")\n        3. Specific constraints (e.g., \"under 500 words,\" \"for beginners\")\n\n        Output ONLY JSON: \x7b\"topic\": string, \"tone\": string, \"constraints\": string\x7d\n\n        User Input: \"" ++ user_input ++ "\"\n        "

/-- The fixed fallback Intent substituted on any parse failure (line 71). -/
def fallbackIntent : JValue :=
  .jobj [("topic", .jstr "general"), ("tone", .jstr "neutral"), ("constraints", .jstr "")]

/-- `input_understanding` (lines 55-71): one generation call, then a strict
JSON parse of the stripped response; any parse failure is caught and
replaced by the fallback Intent (the accompanying console print has no
state effect and is not modelled). `gen` is the generation capability,
which never raises (it returns an error-sentinel string instead). -/
def input_understanding (gen : String → String) (user_input : String) : JValue :=
  match json_loads (pyStrip (gen (intent_prompt user_input))) with
  | some v => v
  | none => fallbackIntent

/-! ## State Updater (blogspark.py lines 73-92) -/

/-- Lines 75-77: ensure the `niches` and `history` keys exist on the state
document (checked and added in that order); a non-dict state raises. -/
def ensure_keys (st : JValue) : Except String JValue :=
  match st with
  | .jobj fs =>
    let fs1 := if dictHasKey fs "niches" then fs else fs ++ [("niches", .jarr [])]
    let fs2 := if dictHasKey fs1 "history" then fs1 else fs1 ++ [("history", .jarr [])]
    .ok (.jobj fs2)
  | _ => .error "TypeError"

/-- Lines 80-82: `if topic and topic not in state["niches"]:
state["niches"].append(topic)` with Python short-circuiting (a falsy topic
skips the membership test and the append). -/
def nichesUpdate (st topic : JValue) : Except String JValue :=
  if pyTruthy topic then
    eb (getItem st "niches") fun niches =>
    eb (pyIn topic niches) fun mem =>
    if mem then .ok st
    else
      match niches with
      | .jarr xs => ob (setItem st "niches" (.jarr (xs ++ [topic]))) "TypeError" .ok
      | _ => .error "AttributeError"
  else .ok st

/-- Python `l[-3:]`: the last `n` elements of a list. -/
def lastN {α : Type} (n : Nat) (l : List α) : List α :=
  (l.reverse.take n).reverse

/-- `update_state` (lines 73-92): self-heal missing keys, merge the topic
into `niches`, append a Turn `(timestamp, analysis, user_input)` to
`history`, truncate the history to its last 3 entries, and persist
(`save_state`, line 92, writes the serialized state; the timestamp is the
`datetime.now().isoformat()` string, passed in as `now`). -/
def update_state (now : String) (st analysis : JValue) : Except String (JValue × FileState) :=
  eb (ensure_keys st) fun st1 =>
  eb (pyGet analysis "topic" (.jstr "")) fun topic =>
  eb (nichesUpdate st1 topic) fun st2 =>
  eb (pyGet analysis "user_input" (.jstr "")) fun ui =>
  eb (getItem st2 "history") fun hist =>
  match hist with
  | .jarr hl =>
    ob (setItem st2 "history" (.jarr (lastN 3 (hl ++
        [.jobj [("timestamp", .jstr now), ("analysis", analysis), ("user_input", ui)]]))))
      "TypeError" fun st3 => .ok (st3, .doc st3)
  | _ => .error "AttributeError"

/-! ## Prompt Planner (blogspark.py lines 94-120) -/

/-- The topic recorded in one history entry, as read by the planner's list
comprehension `h['analysis'].get('topic', '')` (line 97). -/
def topicOfTurn (h : JValue) : Except String JValue :=
  match h with
  | .jobj fs =>
    match dictFind fs "analysis" with
    | none => .error "KeyError"
    | some a =>
      match a with
      | .jobj afs => .ok (dictFindD afs "topic" (.jstr ""))
      | _ => .error "AttributeError"
  | _ => .error "TypeError"

/-- The planner's `history_topics` list comprehension (line 97), over the
history entries in order. -/
def historyTopics : List JValue → Except String (List JValue)
  | [] => .ok []
  | h :: rest =>
    eb (topicOfTurn h) fun t =>
    eb (historyTopics rest) fun ts => .ok (t :: ts)

/-- The planning instruction prompt (lines 99-119) with its six
interpolated fragments. -/
def plan_prompt (topicS toneS consS nichesS topicsS toneLine : String) : String :=
  "\n        You are BlogSpark, a writing prompt assistant. Plan how to generate a prompt based on:\n\n        ### USER REQUEST ###\n        Topic: " ++ topicS ++ "\n        Tone: " ++ toneS ++ "\n        Constraints: " ++ consS ++ "\n\n        ### AGENT STATE ###\n        Niches: " ++ nichesS ++ "\n        Last Prompts: " ++ topicsS ++ "\n\n        ### PLANNING STEPS ###\n        1. If no topic, select from niches or trending topics\n        2. Avoid repeating last 3 prompts\n        3. Structure: [Hook] + [Question] + [Challenge]\n        4. Add tip if constraints exist\n        5. Adjust for tone: " ++ toneLine ++ "\n\n        Output ONLY the final prompt structure in plain text.\n        "

/-- `plan_task` (lines 94-120): read `niches` and `history` from the
(already updated) state, extract the history topics, build the planning
prompt, and return the generation client's raw text verbatim. Iterating a
non-list history is modelled as TypeError (every reachable state here
stores a list). -/
def plan_task (gen : String → String) (st analysis : JValue) : Except String String :=
  eb (pyGet st "niches" (.jarr [])) fun niches =>
  eb (pyGet st "history" (.jarr [])) fun history =>
  match history with
  | .jarr hl =>
    eb (historyTopics hl) fun topics =>
    match analysis with
    | .jobj afs =>
      eb (joinComma niches) fun nichesS =>
      .ok (gen (plan_prompt
        (pyStr (dictFindD afs "topic" (.jstr "general")))
        (pyStr (dictFindD afs "tone" (.jstr "neutral")))
        (pyStr (dictFindD afs "constraints" (.jstr "none")))
        nichesS
        (pyReprF 100 (.jarr topics))
        (if jbeq (dictFindD afs "tone" .jnull) (.jstr "casual")
          then "Use emojis for casual" else "Be concise for professional")))
    | _ => .error "AttributeError"
  | _ => .error "TypeError"

/-! ## Prompt Renderer (blogspark.py lines 122-138) -/

/-- The rendering instruction prompt (lines 125-137). -/
def render_prompt (plan toneS : String) : String :=
  "\n        Generate a writing prompt using this structure:\n\n        " ++ plan ++ "\n\n        Format output EXACTLY as:\n        ✨ **Prompt Idea**: [Hook sentence]\n        ❓ **Explore**: [Open-ended question]\n        ⚡ **Challenge**: [Actionable task]\n        💡 **Tip**: [Brief advice]\n\n        Use tone: " ++ toneS ++ "\n        "

/-- `generate_output` (lines 122-138): read the stored tone preference
(default "friendly"), embed the plan text verbatim in the rendering prompt,
and return the generation client's raw text with no further validation. -/
def generate_output (gen : String → String) (st : JValue) (plan : String) :
    Except String String :=
  eb (pyGet st "user_preferences" (.jobj [])) fun prefs =>
  eb (pyGet prefs "tone" (.jstr "friendly")) fun tone =>
  .ok (gen (render_prompt plan (pyStr tone)))

/-! ## Pipeline Orchestrator (blogspark.py lines 140-145) -/

/-- The observable trace of one `run` call: the analysis dict after the raw
input is attached, the post-update state and persisted file, the plan text,
and the final returned output (`run`'s Python return value is `output`; the
other fields record its intermediate locals for the theorems below). -/
structure RunResult where
  analysis : JValue
  state : JValue
  file : FileState
  plan : String
  output : String

/-- `run` (lines 140-145): extract the intent, attach the raw input with
`analysis["user_input"] = user_input` (TypeError when the parsed response
is not a dict), update and persist the state, then plan and render in
sequence. Each stage is attempted exactly once. -/
def run (gen : String → String) (now : String) (st : JValue) (user_input : String) :
    Except String RunResult :=
  ob (setItem (input_understanding gen user_input) "user_input" (.jstr user_input))
    "TypeError" fun analysis =>
  eb (update_state now st analysis) fun p =>
  eb (plan_task gen p.1 analysis) fun plan =>
  eb (generate_output gen p.1 plan) fun out =>
  .ok ⟨analysis, p.1, p.2, plan, out⟩

/-- One request against the agent: the generation capability's behaviour
during the request, the wall-clock timestamp, and the raw input line. -/
structure Req where
  gen : String → String
  now : String
  input : String

/-- A sequence of requests run back to back, threading state and file. -/
def runAll (st : JValue) (file : FileState) : List Req → Except String (JValue × FileState)
  | [] => .ok (st, file)
  | q :: qs => eb (run q.gen q.now st q.input) fun r => runAll r.state r.file qs

/-- Does an `Except` computation return normally? -/
def isOkE {α : Type} : Except String α → Bool
  | .ok _ => true
  | .error _ => false

/-! ## Interactive surface (blogspark.py lines 154-167) -/

/-- Outcome of one iteration of the CLI loop. -/
inductive CliOutcome where
  | exited
  | rejected (st : JValue) (file : FileState)
  | answered (output : String) (st : JValue) (file : FileState)
  | failed (msg : String)

/-- One iteration of the interactive loop (lines 154-163): an exit sentinel
breaks, an input whose `strip()` is empty is rejected with a retry prompt
before any pipeline stage runs (state and file untouched), otherwise the
pipeline runs once; a raised exception is caught and reported by the loop
(line 166). -/
def cli_step (gen : String → String) (now : String) (st : JValue) (file : FileState)
    (line : String) : CliOutcome :=
  if pyLower line = "exit" ∨ pyLower line = "quit" then .exited
  else if pyStrip line = "" then .rejected st file
  else
    match run gen now st line with
    | .ok r => .answered r.output r.state r.file
    | .error e => .failed e

/-! ## Intents as records (spec section 3) -/

/-- The spec's Intent record: three string fields. -/
structure Intent where
  topic : String
  tone : String
  constraints : String

/-- An Intent as the dict `json.loads` would produce for the requested
`{"topic": ..., "tone": ..., "constraints": ...}` shape. -/
def Intent.toJ (i : Intent) : JValue :=
  .jobj [("topic", .jstr i.topic), ("tone", .jstr i.tone), ("constraints", .jstr i.constraints)]

/-- Fold a sequence of extracted intents into the state through
`update_state`, as the State Updater does once per completed request. -/
def updAll (st : JValue) : List (String × Intent) → Except String JValue
  | [] => .ok st
  | (now, i) :: rest => eb (update_state now st i.toJ) fun p => updAll p.1 rest

/-! ## Shape of reachable states and the `update_state` step lemma -/

/-- A state document with the default field layout: every state reachable
from `defaultStateJ` keeps this shape (`dictSet` overwrites in place). -/
def mkStateJ (hs ns : List JValue) (prefs : JValue) : JValue :=
  .jobj [("history", .jarr hs), ("niches", .jarr ns), ("user_preferences", prefs)]

/-- The default user preferences dict. -/
def defaultPrefs : JValue :=
  .jobj [("tone", .jstr "friendly"), ("complexity", .jstr "medium")]

theorem defaultStateJ_eq_mk : defaultStateJ = mkStateJ [] [] defaultPrefs := rfl

/-- The topic an analysis dict contributes, `analysis.get("topic", "")`. -/
def topicOfA (afs : List (String × JValue)) : JValue :=
  dictFindD afs "topic" (.jstr "")

/-- The Turn dict `update_state` appends for an analysis dict. -/
def turnOf (now : String) (afs : List (String × JValue)) : JValue :=
  .jobj [("timestamp", .jstr now), ("analysis", .jobj afs),
         ("user_input", dictFindD afs "user_input" (.jstr ""))]

/-- The niches list after one `update_state` call: append the topic when it
is truthy and new, otherwise leave the list unchanged. -/
def nstep (ns : List JValue) (afs : List (String × JValue)) : List JValue :=
  if pyTruthy (topicOfA afs) && !pyMem (topicOfA afs) ns then ns ++ [topicOfA afs] else ns

/-- The timestamp string stored in a Turn dict. -/
def turnStamp (t : JValue) : String :=
  match t with
  | .jobj fs =>
    match dictFind fs "timestamp" with
    | some (.jstr s) => s
    | _ => ""
  | _ => ""

theorem dictFind_set_self (fs : List (String × JValue)) (k : String) (v : JValue) :
    dictFind (dictSet fs k v) k = some v := by
  induction fs with
  | nil => simp [dictSet, dictFind]
  | cons p rest ih =>
    obtain ⟨k', v'⟩ := p
    by_cases h : k' = k
    · simp [dictSet, dictFind, h]
    · simp [dictSet, dictFind, h, ih]

theorem pyMem_append_self (x : JValue) (l : List JValue) :
    pyMem x (l ++ [x]) = true := by
  induction l with
  | nil => simp [pyMem, jbeq_refl]
  | cons y rest ih => simp [pyMem, ih]

theorem jbeq_jstr (a b : String) : jbeq (.jstr a) (.jstr b) = (a == b) := rfl

theorem pyMem_jstr (t : String) (ns : List String) :
    pyMem (.jstr t) (ns.map .jstr) = true ↔ t ∈ ns := by
  induction ns with
  | nil => simp [pyMem]
  | cons a rest ih => simp [pyMem, jbeq_jstr, ih]

/-! ### `lastN` algebra -/

theorem lastN_length {α : Type} (n : Nat) (l : List α) :
    (lastN n l).length = min n l.length := by
  simp [lastN]

theorem lastN_map {α β : Type} (f : α → β) (n : Nat) (l : List α) :
    (lastN n l).map f = lastN n (l.map f) := by
  simp [lastN, List.map_reverse, List.map_take]

theorem lastN_sublist {α : Type} (n : Nat) (l : List α) :
    List.Sublist (lastN n l) l := by
  have h : List.Sublist (l.reverse.take n) l.reverse := List.take_sublist n l.reverse
  have h2 := h.reverse
  rwa [List.reverse_reverse] at h2

theorem lastN_succ_append {α : Type} (n : Nat) (l : List α) (t : α) :
    lastN (n + 1) (l ++ [t]) = lastN n l ++ [t] := by
  simp [lastN, List.take_succ_cons]

theorem lastN_append_lastN {α : Type} (n : Nat) (A B : List α) :
    lastN n (lastN n A ++ B) = lastN n (A ++ B) := by
  unfold lastN
  rw [List.reverse_append, List.reverse_reverse, List.reverse_append]
  rw [List.take_append_eq_append_take, List.take_append_eq_append_take]
  rw [List.take_take]
  have hm : min (n - B.reverse.length) n = n - B.reverse.length :=
    Nat.min_eq_left (Nat.sub_le _ _)
  rw [hm]

theorem lastN_idem {α : Type} (n : Nat) (l : List α) :
    lastN n (lastN n l) = lastN n l := by
  have h := lastN_append_lastN n l []
  simpa using h

/-! ### Step lemmas for `update_state` on well-shaped states -/

theorem getItem_mk_history (hs ns : List JValue) (prefs : JValue) :
    getItem (mkStateJ hs ns prefs) "history" = .ok (.jarr hs) := rfl

theorem getItem_mk_niches (hs ns : List JValue) (prefs : JValue) :
    getItem (mkStateJ hs ns prefs) "niches" = .ok (.jarr ns) := rfl

theorem setItem_mk_history (hs ns hs' : List JValue) (prefs : JValue) :
    setItem (mkStateJ hs ns prefs) "history" (.jarr hs') = some (mkStateJ hs' ns prefs) := rfl

theorem setItem_mk_niches (hs ns ns' : List JValue) (prefs : JValue) :
    setItem (mkStateJ hs ns prefs) "niches" (.jarr ns') = some (mkStateJ hs ns' prefs) := rfl

theorem ensure_keys_mk (hs ns : List JValue) (prefs : JValue) :
    ensure_keys (mkStateJ hs ns prefs) = .ok (mkStateJ hs ns prefs) := rfl

theorem pyGet_obj (afs : List (String × JValue)) (k : String) (d : JValue) :
    pyGet (.jobj afs) k d = .ok (dictFindD afs k d) := rfl

theorem pyIn_arr (x : JValue) (xs : List JValue) : pyIn x (.jarr xs) = .ok (pyMem x xs) := rfl

theorem nichesUpdate_mk (hs ns : List JValue) (prefs topic : JValue) :
    nichesUpdate (mkStateJ hs ns prefs) topic =
      .ok (mkStateJ hs (if pyTruthy topic && !pyMem topic ns then ns ++ [topic] else ns)
        prefs) := by
  cases ht : pyTruthy topic with
  | false => simp [nichesUpdate, ht]
  | true =>
    cases hm : pyMem topic ns with
    | true => simp [nichesUpdate, ht, hm, getItem_mk_niches, eb_ok, pyIn_arr]
    | false =>
      simp [nichesUpdate, ht, hm, getItem_mk_niches, eb_ok, pyIn_arr, setItem_mk_niches, ob_some]

theorem update_state_mk (now : String) (hs ns : List JValue) (prefs : JValue)
    (afs : List (String × JValue)) :
    update_state now (mkStateJ hs ns prefs) (.jobj afs) =
      .ok (mkStateJ (lastN 3 (hs ++ [turnOf now afs])) (nstep ns afs) prefs,
           .doc (mkStateJ (lastN 3 (hs ++ [turnOf now afs])) (nstep ns afs) prefs)) := by
  simp only [update_state, ensure_keys_mk, eb_ok, pyGet_obj, nichesUpdate_mk,
    getItem_mk_history, setItem_mk_history, ob_some, nstep, turnOf, topicOfA]

theorem pyGet_mk_niches (hs ns : List JValue) (prefs d : JValue) :
    pyGet (mkStateJ hs ns prefs) "niches" d = .ok (.jarr ns) := rfl

theorem pyGet_mk_history (hs ns : List JValue) (prefs d : JValue) :
    pyGet (mkStateJ hs ns prefs) "history" d = .ok (.jarr hs) := rfl

theorem pyGet_mk_prefs (hs ns : List JValue) (prefs d : JValue) :
    pyGet (mkStateJ hs ns prefs) "user_preferences" d = .ok prefs := rfl

/-- Inversion of a successful `run` from a well-shaped state: the parsed
response was a dict, the raw input was attached to it, the resulting state
is the input state with the Turn appended (history truncated to 3) and the
topic merged into niches, it was persisted, and the planner successfully
extracted the topics of the updated history. -/
theorem run_ok_inv (gen : String → String) (now u : String) (hs ns : List JValue)
    (prefs : JValue) (r : RunResult)
    (hok : run gen now (mkStateJ hs ns prefs) u = .ok r) :
    ∃ afs0 : List (String × JValue),
      input_understanding gen u = .jobj afs0 ∧
      r.analysis = .jobj (dictSet afs0 "user_input" (.jstr u)) ∧
      r.state = mkStateJ (lastN 3 (hs ++ [turnOf now (dictSet afs0 "user_input" (.jstr u))]))
        (nstep ns (dictSet afs0 "user_input" (.jstr u))) prefs ∧
      r.file = .doc r.state ∧
      ∃ tl, historyTopics
          (lastN 3 (hs ++ [turnOf now (dictSet afs0 "user_input" (.jstr u))])) = .ok tl := by
  unfold run at hok
  rw [ob_ok_iff] at hok
  obtain ⟨analysis, hset, hok⟩ := hok
  rcases hx : input_understanding gen u with _ | b | n | s | xs | afs0 <;>
    rw [hx] at hset <;> simp only [setItem, Option.some.injEq, reduceCtorEq] at hset
  subst hset
  refine ⟨afs0, rfl, ?_⟩
  rw [update_state_mk] at hok
  rw [eb_ok] at hok
  simp only at hok
  rw [eb_ok_iff] at hok
  obtain ⟨plan, hplan, hok⟩ := hok
  rw [eb_ok_iff] at hok
  obtain ⟨out, hout, hfin⟩ := hok
  have hr : r = ⟨.jobj (dictSet afs0 "user_input" (.jstr u)),
      mkStateJ (lastN 3 (hs ++ [turnOf now (dictSet afs0 "user_input" (.jstr u))]))
        (nstep ns (dictSet afs0 "user_input" (.jstr u))) prefs,
      .doc (mkStateJ (lastN 3 (hs ++ [turnOf now (dictSet afs0 "user_input" (.jstr u))]))
        (nstep ns (dictSet afs0 "user_input" (.jstr u))) prefs),
      plan, out⟩ := by
    cases hfin
    rfl
  subst hr
  refine ⟨rfl, rfl, rfl, ?_⟩
  unfold plan_task at hplan
  rw [pyGet_mk_niches, eb_ok, pyGet_mk_history, eb_ok] at hplan
  simp only at hplan
  rw [eb_ok_iff] at hplan
  obtain ⟨tl, htl, _⟩ := hplan
  exact ⟨tl, htl⟩

theorem turnStamp_turnOf (now : String) (afs : List (String × JValue)) :
    turnStamp (turnOf now afs) = now := rfl

/-- Splitting a request sequence splits the fold. -/
theorem runAll_append (l₁ l₂ : List Req) :
    ∀ st f, runAll st f (l₁ ++ l₂) =
      eb (runAll st f l₁) fun p => runAll p.1 p.2 l₂ := by
  induction l₁ with
  | nil => intro st f; rfl
  | cons q qs ih =>
    intro st f
    show eb (run q.gen q.now st q.input) (fun r => runAll r.state r.file (qs ++ l₂)) =
      eb (eb (run q.gen q.now st q.input) fun r => runAll r.state r.file qs)
        fun p => runAll p.1 p.2 l₂
    cases hr : run q.gen q.now st q.input with
    | error e => rfl
    | ok r => exact ih r.state r.file

/-- Invariant of a completed request sequence from a well-shaped state
whose stored history is already truncated: the resulting state is again
well-shaped, its history is the last 3 of the accumulated turns, and the
timestamps of the accumulated turns are exactly the request timestamps in
request order. -/
theorem runAll_inv (qs : List Req) :
    ∀ hs ns : List JValue, ∀ prefs : JValue, ∀ f : FileState, ∀ stf : JValue × FileState,
      lastN 3 hs = hs →
      runAll (mkStateJ hs ns prefs) f qs = .ok stf →
      ∃ turns : List JValue, ∃ ns₂ : List JValue,
        stf.1 = mkStateJ (lastN 3 (hs ++ turns)) ns₂ prefs ∧
        turns.map turnStamp = qs.map Req.now := by
  induction qs with
  | nil =>
    intro hs ns prefs f stf hhs hok
    cases hok
    exact ⟨[], ns, by simp [hhs], rfl⟩
  | cons q qs ih =>
    intro hs ns prefs f stf hhs hok
    have hok' : eb (run q.gen q.now (mkStateJ hs ns prefs) q.input)
        (fun r => runAll r.state r.file qs) = .ok stf := hok
    rw [eb_ok_iff] at hok'
    obtain ⟨r, hr, hrest⟩ := hok'
    obtain ⟨afs0, _, _, hstate, _, _⟩ := run_ok_inv q.gen q.now q.input hs ns prefs r hr
    rw [hstate] at hrest
    obtain ⟨turns, ns₂, hst, hts⟩ :=
      ih (lastN 3 (hs ++ [turnOf q.now (dictSet afs0 "user_input" (.jstr q.input))]))
        (nstep ns (dictSet afs0 "user_input" (.jstr q.input))) prefs r.file stf
        (lastN_idem 3 _) hrest
    refine ⟨turnOf q.now (dictSet afs0 "user_input" (.jstr q.input)) :: turns, ns₂, ?_, ?_⟩
    · rw [hst, lastN_append_lastN]
      simp
    · simp [hts, turnStamp_turnOf]

theorem topicOfTurn_turnOf (now : String) (afs : List (String × JValue)) :
    topicOfTurn (turnOf now afs) = .ok (dictFindD afs "topic" (.jstr "")) := rfl

/-- When the planner's topic extraction succeeds on a history ending in a
given turn, the resulting topic list ends in that turn's topic. -/
theorem historyTopics_append_last (l : List JValue) (t : JValue) (tl : List JValue)
    (h : historyTopics (l ++ [t]) = .ok tl) :
    ∃ tl₀ v, tl = tl₀ ++ [v] ∧ topicOfTurn t = .ok v := by
  induction l generalizing tl with
  | nil =>
    rw [show historyTopics ([] ++ [t]) =
      eb (topicOfTurn t) (fun v => eb (historyTopics []) fun ts => .ok (v :: ts)) from rfl] at h
    rw [eb_ok_iff] at h
    obtain ⟨v, hv, h⟩ := h
    rw [show historyTopics [] = (.ok [] : Except String (List JValue)) from rfl, eb_ok] at h
    cases h
    exact ⟨[], v, rfl, hv⟩
  | cons x xs ih =>
    rw [show historyTopics ((x :: xs) ++ [t]) =
      eb (topicOfTurn x)
        (fun v => eb (historyTopics (xs ++ [t])) fun ts => .ok (v :: ts)) from rfl] at h
    rw [eb_ok_iff] at h
    obtain ⟨v, _, h⟩ := h
    rw [eb_ok_iff] at h
    obtain ⟨ts, hts, h⟩ := h
    cases h
    obtain ⟨tl₀, w, rfl, hw⟩ := ih ts hts
    exact ⟨v :: tl₀, w, rfl, hw⟩

/-! ### The niches fold at the level of topic strings -/

/-- The effect of one request's topic on the niches, at string level:
empty topics and already-present topics leave the list unchanged, new
topics are appended. -/
def nicheFoldStr (ns : List String) (t : String) : List String :=
  if t = "" then ns else if t ∈ ns then ns else ns ++ [t]

/-- First-occurrence deduplication step. -/
def dedupStep (acc : List String) (t : String) : List String :=
  if t ∈ acc then acc else acc ++ [t]

/-- The distinct elements of a list in first-occurrence order. -/
def dedupFirst (ts : List String) : List String := ts.foldl dedupStep []

theorem nstep_intent (ns : List String) (i : Intent) :
    nstep (ns.map .jstr)
        [("topic", .jstr i.topic), ("tone", .jstr i.tone), ("constraints", .jstr i.constraints)] =
      (nicheFoldStr ns i.topic).map .jstr := by
  unfold nstep nicheFoldStr
  rw [show topicOfA
      [("topic", .jstr i.topic), ("tone", .jstr i.tone), ("constraints", .jstr i.constraints)] =
    .jstr i.topic from rfl]
  by_cases he : i.topic = ""
  · simp [he, pyTruthy]
  · by_cases hm : i.topic ∈ ns
    · have hpm : pyMem (.jstr i.topic) (ns.map .jstr) = true := (pyMem_jstr _ _).mpr hm
      simp [pyTruthy, he, hm, hpm]
    · have hpm : pyMem (.jstr i.topic) (ns.map .jstr) = false := by
        rw [← Bool.not_eq_true]
        intro hc
        exact hm ((pyMem_jstr _ _).mp hc)
      simp [pyTruthy, he, hm, hpm]

/-- Folding intents through `update_state` keeps the state well shaped and
drives the niches by the string-level fold over the intents' topics. -/
theorem updAll_inv (reqs : List (String × Intent)) :
    ∀ hs : List JValue, ∀ ns : List String, ∀ prefs st' : JValue,
      updAll (mkStateJ hs (ns.map .jstr) prefs) reqs = .ok st' →
      ∃ hs₂, st' = mkStateJ hs₂
        (((reqs.map (fun p => p.2.topic)).foldl nicheFoldStr ns).map .jstr) prefs := by
  induction reqs with
  | nil =>
    intro hs ns prefs st' h
    cases h
    exact ⟨hs, rfl⟩
  | cons p rest ih =>
    intro hs ns prefs st' h
    obtain ⟨now, i⟩ := p
    have h' : eb (update_state now (mkStateJ hs (ns.map .jstr) prefs) i.toJ)
        (fun q => updAll q.1 rest) = .ok st' := h
    rw [show i.toJ = JValue.jobj
      [("topic", .jstr i.topic), ("tone", .jstr i.tone), ("constraints", .jstr i.constraints)]
      from rfl] at h'
    rw [update_state_mk, eb_ok] at h'
    simp only at h'
    rw [nstep_intent] at h'
    obtain ⟨hs₂, hst⟩ := ih _ (nicheFoldStr ns i.topic) prefs st' h'
    exact ⟨hs₂, by simpa using hst⟩

theorem foldl_nicheFoldStr_filter (ts : List String) :
    ∀ ns, ts.foldl nicheFoldStr ns = (ts.filter (fun t => t ≠ "")).foldl dedupStep ns := by
  induction ts with
  | nil => intro ns; rfl
  | cons t rest ih =>
    intro ns
    by_cases he : t = ""
    · simp [he, nicheFoldStr, ih]
    · simp [List.filter_cons, he, nicheFoldStr, dedupStep, ih]

theorem foldl_dedupStep_nodup (ts : List String) :
    ∀ ns, ns.Nodup → (ts.foldl dedupStep ns).Nodup := by
  induction ts with
  | nil => intro ns h; exact h
  | cons t rest ih =>
    intro ns h
    rw [List.foldl_cons]
    apply ih
    unfold dedupStep
    by_cases hm : t ∈ ns
    · simpa [hm] using h
    · simp [hm, List.nodup_append, h]

theorem mem_foldl_dedupStep (ts : List String) :
    ∀ ns x, x ∈ ts.foldl dedupStep ns → x ∈ ns ∨ x ∈ ts := by
  induction ts with
  | nil => intro ns x h; exact Or.inl h
  | cons t rest ih =>
    intro ns x h
    rw [List.foldl_cons] at h
    rcases ih _ x h with hx | hx
    · unfold dedupStep at hx
      by_cases hm : t ∈ ns
      · rw [if_pos hm] at hx
        exact Or.inl hx
      · rw [if_neg hm] at hx
        rcases List.mem_append.mp hx with hx | hx
        · exact Or.inl hx
        · have hxt : x = t := List.mem_singleton.mp hx
          subst hxt
          exact Or.inr (List.mem_cons_self x rest)
    · exact Or.inr (List.mem_cons_of_mem t hx)

/-! ### Lemmas for the interactive surface -/

theorem toLower_of_space (c : Char) (h : isPySpace c = true) : c.toLower = c := by
  unfold isPySpace at h
  simp only [Bool.or_eq_true, decide_eq_true_eq] at h
  rcases h with ((((h | h) | h) | h) | h) | h <;> subst h <;> decide

theorem space_ne_eq (c : Char) (h : isPySpace c = true) : c ≠ 'e' ∧ c ≠ 'q' := by
  unfold isPySpace at h
  simp only [Bool.or_eq_true, decide_eq_true_eq] at h
  rcases h with ((((h | h) | h) | h) | h) | h <;> subst h <;> exact ⟨by decide, by decide⟩

theorem pyStrip_of_space (line : String) (h : ∀ c ∈ line.data, isPySpace c = true) :
    pyStrip line = "" := by
  unfold pyStrip
  have h1 : line.data.dropWhile isPySpace = [] := by
    rw [List.dropWhile_eq_nil_iff]
    exact fun x hx => h x hx
  rw [h1]
  rfl

theorem pyLower_ne_sentinel (line : String) (h : ∀ c ∈ line.data, isPySpace c = true) :
    pyLower line ≠ "exit" ∧ pyLower line ≠ "quit" := by
  constructor <;> intro hc
  · have hd : line.data.map Char.toLower = "exit".data := congrArg String.data hc
    cases hld : line.data with
    | nil => rw [hld] at hd; exact absurd hd (by decide)
    | cons c cs =>
      rw [hld] at hd
      have hc1 : c.toLower = 'e' := by
        have := congrArg (fun l => l.headI) hd
        simpa using this
      have hsp : isPySpace c = true := h c (by rw [hld]; exact List.mem_cons_self _ _)
      rw [toLower_of_space c hsp] at hc1
      exact (space_ne_eq c hsp).1 hc1
  · have hd : line.data.map Char.toLower = "quit".data := congrArg String.data hc
    cases hld : line.data with
    | nil => rw [hld] at hd; exact absurd hd (by decide)
    | cons c cs =>
      rw [hld] at hd
      have hc1 : c.toLower = 'q' := by
        have := congrArg (fun l => l.headI) hd
        simpa using this
      have hsp : isPySpace c = true := h c (by rw [hld]; exact List.mem_cons_self _ _)
      rw [toLower_of_space c hsp] at hc1
      exact (space_ne_eq c hsp).2 hc1

/-! ## Claim theorems -/

/-- C1: For every sequence of N completed requests starting from a freshly
initialized state, after each request (that is, after each prefix of k
requests) the history has length min(k, 3), its entries' timestamps are
exactly the timestamps of the most recent min(k, 3) requests in request
order — so an append beyond capacity evicts the oldest entry — and the
retained timestamps are strictly chronological whenever the request clock
is (the Pairwise transfer below, instantiated with the chronological
order). -/
theorem C1_history_bounded_chronological (qs : List Req)
    (hok : isOkE (runAll defaultStateJ (.doc defaultStateJ) qs) = true)
    (k : Nat) (hk : k ≤ qs.length) :
    ∃ stf : JValue × FileState,
      runAll defaultStateJ (.doc defaultStateJ) (qs.take k) = .ok stf ∧
      ∃ hl, getItem stf.1 "history" = .ok (.jarr hl) ∧
        hl.length = min k 3 ∧
        hl.map turnStamp = lastN 3 ((qs.take k).map Req.now) ∧
        ∀ R : String → String → Prop,
          (qs.map Req.now).Pairwise R → (hl.map turnStamp).Pairwise R := by
  cases hfull : runAll defaultStateJ (.doc defaultStateJ) qs with
  | error e =>
    rw [hfull] at hok
    simp [isOkE] at hok
  | ok res =>
  have hsplit := runAll_append (qs.take k) (qs.drop k) defaultStateJ (.doc defaultStateJ)
  rw [List.take_append_drop, hfull] at hsplit
  cases hpre : runAll defaultStateJ (.doc defaultStateJ) (qs.take k) with
  | error e =>
    rw [hpre] at hsplit
    exact Except.noConfusion hsplit
  | ok stf =>
  refine ⟨stf, rfl, ?_⟩
  rw [defaultStateJ_eq_mk] at hpre
  obtain ⟨turns, ns₂, hst, hts⟩ :=
    runAll_inv (qs.take k) [] [] defaultPrefs (.doc defaultStateJ) stf rfl hpre
  have hlen : turns.length = k := by
    have := congrArg List.length hts
    simp only [List.length_map] at this
    rw [this, List.length_take]
    exact Nat.min_eq_left hk
  refine ⟨lastN 3 turns, by rw [hst]; exact getItem_mk_history _ _ _, ?_, ?_, ?_⟩
  · rw [lastN_length, hlen, Nat.min_comm]
  · rw [lastN_map, hts]
  · intro R hR
    rw [lastN_map, hts]
    have hsub1 : List.Sublist (lastN 3 ((qs.take k).map Req.now)) ((qs.take k).map Req.now) :=
      lastN_sublist 3 _
    have hsub2 : List.Sublist ((qs.take k).map Req.now) (qs.map Req.now) := by
      rw [List.map_take]
      exact List.take_sublist k _
    exact hR.sublist (hsub1.trans hsub2)

/-- Four concrete requests used to witness C1. -/
def c1Reqs : List Req :=
  [⟨fun _ => "w", "2024-01-01T00:00:01", "a"⟩,
   ⟨fun _ => "x", "2024-01-01T00:00:02", "b"⟩,
   ⟨fun _ => "y", "2024-01-01T00:00:03", "c"⟩,
   ⟨fun _ => "z", "2024-01-01T00:00:04", "d"⟩]

/-- C1 witness: four fallback-intent requests from the fresh state; after
all four, the history keeps the last three turns in request order. -/
theorem C1_witness :
    ∃ stf : JValue × FileState,
      runAll defaultStateJ (.doc defaultStateJ) (c1Reqs.take 4) = .ok stf ∧
      ∃ hl, getItem stf.1 "history" = .ok (.jarr hl) ∧
        hl.length = min 4 3 ∧
        hl.map turnStamp = lastN 3 ((c1Reqs.take 4).map Req.now) ∧
        ∀ R : String → String → Prop,
          (c1Reqs.map Req.now).Pairwise R → (hl.map turnStamp).Pairwise R :=
  C1_history_bounded_chronological c1Reqs rfl 4 (by decide)

/-- C2: for any sequence of intents folded into the state, the niches list
is exactly the distinct non-empty topics in first-occurrence order, so it
contains no duplicate and no empty-string entry, and insertion order of
distinct topics is preserved. -/
theorem C2_niches_invariant (reqs : List (String × Intent))
    (hok : isOkE (updAll defaultStateJ reqs) = true) :
    ∃ st', updAll defaultStateJ reqs = .ok st' ∧
    ∃ nl, getItem st' "niches" = .ok (.jarr nl) ∧
      nl = (dedupFirst ((reqs.map (fun p => p.2.topic)).filter (fun t => t ≠ ""))).map .jstr ∧
      nl.Nodup ∧ JValue.jstr "" ∉ nl := by
  cases hres : updAll defaultStateJ reqs with
  | error e =>
    rw [hres] at hok
    simp [isOkE] at hok
  | ok st' =>
  refine ⟨st', rfl, ?_⟩
  rw [defaultStateJ_eq_mk] at hres
  obtain ⟨hs₂, hst⟩ := updAll_inv reqs [] [] defaultPrefs st' hres
  subst hst
  refine ⟨_, getItem_mk_niches _ _ _, ?_, ?_, ?_⟩
  · rw [foldl_nicheFoldStr_filter]
    rfl
  · refine List.Nodup.map (fun a b hab => by injection hab) ?_
    rw [foldl_nicheFoldStr_filter]
    exact foldl_dedupStep_nodup _ [] List.nodup_nil
  · intro hmem
    rw [List.mem_map] at hmem
    obtain ⟨t, ht, hte⟩ := hmem
    injection hte with hte
    subst hte
    rw [foldl_nicheFoldStr_filter] at ht
    rcases mem_foldl_dedupStep _ [] _ ht with hh | hh
    · exact absurd hh (List.not_mem_nil _)
    · rw [List.mem_filter] at hh
      simpa using hh.2

/-- C2 witness: a repeated topic and an empty topic; the niches keep one
copy of each distinct non-empty topic in order of first appearance. -/
theorem C2_witness :
    ∃ st', updAll defaultStateJ
      [("t1", ⟨"cats", "fun", ""⟩), ("t2", ⟨"", "dry", ""⟩),
       ("t3", ⟨"cats", "dry", ""⟩), ("t4", ⟨"dogs", "calm", ""⟩)] = .ok st' ∧
    ∃ nl, getItem st' "niches" = .ok (.jarr nl) ∧
      nl = (dedupFirst (((([("t1", (⟨"cats", "fun", ""⟩ : Intent)), ("t2", ⟨"", "dry", ""⟩),
        ("t3", ⟨"cats", "dry", ""⟩), ("t4", ⟨"dogs", "calm", ""⟩)] : List (String × Intent))).map
          (fun p => p.2.topic)).filter (fun t => t ≠ ""))).map .jstr ∧
      nl.Nodup ∧ JValue.jstr "" ∉ nl :=
  C2_niches_invariant _ rfl

/-- C3: if the generation response for the intent-extraction call is not
parseable JSON, `run` still completes and returns a result, and the Intent
produced by the extractor and used downstream is exactly the fixed fallback
(with the raw input attached to it by the orchestrator). -/
theorem C3_fallback_intent (gen : String → String) (now u : String)
    (h : json_loads (pyStrip (gen (intent_prompt u))) = none) :
    input_understanding gen u = fallbackIntent ∧
    ∃ r, run gen now defaultStateJ u = .ok r ∧
      r.analysis = .jobj [("topic", .jstr "general"), ("tone", .jstr "neutral"),
        ("constraints", .jstr ""), ("user_input", .jstr u)] := by
  have hiu : input_understanding gen u = fallbackIntent := by
    unfold input_understanding
    rw [h]
  refine ⟨hiu, ?_⟩
  unfold run
  rw [hiu]
  exact ⟨_, rfl, rfl⟩

/-- C3 witness at a concrete non-JSON response. -/
theorem C3_witness :
    input_understanding (fun _ => "oops") "hi" = fallbackIntent ∧
    ∃ r, run (fun _ => "oops") "2024-01-01T00:00:00" defaultStateJ "hi" = .ok r ∧
      r.analysis = .jobj [("topic", .jstr "general"), ("tone", .jstr "neutral"),
        ("constraints", .jstr ""), ("user_input", .jstr "hi")] :=
  C3_fallback_intent (fun _ => "oops") "2024-01-01T00:00:00" "hi" rfl

/-- C4: the claim that `run` terminates normally for every generation
response fails in the code: a response that is valid JSON but not an object
— here the string "42" — passes the extractor's parse, and `run` then
raises TypeError at `analysis["user_input"] = user_input` (line 142), so
the pipeline aborts instead of returning a string. -/
theorem C4_nonobject_response_aborts :
    json_loads (pyStrip "42") = some (.jnum 42) ∧
    run (fun _ => "42") "2024-01-01T00:00:00" defaultStateJ "hello" = .error "TypeError" :=
  ⟨rfl, rfl⟩

/-- C5: with an error-sentinel response on every call, the extractor falls
back (the sentinel is not JSON), and the final output of `run` is exactly
the sentinel text produced by the renderer's generation call — the planner
and renderer pass it through unchanged. -/
theorem C5_sentinel_passthrough (s now u : String) (h : json_loads (pyStrip s) = none) :
    input_understanding (fun _ => s) u = fallbackIntent ∧
    ∃ r, run (fun _ => s) now defaultStateJ u = .ok r ∧ r.plan = s ∧ r.output = s := by
  have hiu : input_understanding (fun _ => s) u = fallbackIntent := by
    unfold input_understanding
    rw [show json_loads (pyStrip ((fun _ : String => s) (intent_prompt u))) = none from h]
  refine ⟨hiu, ?_⟩
  unfold run
  rw [hiu]
  exact ⟨_, rfl, rfl, rfl⟩

/-- C5 witness at a concrete sentinel string. -/
theorem C5_witness :
    input_understanding (fun _ => "API Error: boom") "hi" = fallbackIntent ∧
    ∃ r, run (fun _ => "API Error: boom") "2024-01-01T00:00:00" defaultStateJ "hi" = .ok r ∧
      r.plan = "API Error: boom" ∧ r.output = "API Error: boom" :=
  C5_sentinel_passthrough "API Error: boom" "2024-01-01T00:00:00" "hi" rfl

theorem dictFindD_set_self (fs : List (String × JValue)) (k : String) (v d : JValue) :
    dictFindD (dictSet fs k v) k d = v := by
  unfold dictFindD
  rw [dictFind_set_self]
  rfl

/-- C6: the state update completes (and persists) before the planner reads
the state: for every completed request, the topics the planner extracts
from the post-update history contain the current request's topic, and when
that topic is truthy it is also present in the post-update niches list. -/
theorem C6_planner_sees_current_intent (gen : String → String) (now u : String)
    (hs ns : List JValue) (prefs : JValue)
    (hok : isOkE (run gen now (mkStateJ hs ns prefs) u) = true) :
    ∃ r, run gen now (mkStateJ hs ns prefs) u = .ok r ∧
    ∃ afs, r.analysis = .jobj afs ∧
    ∃ hl tl, getItem r.state "history" = .ok (.jarr hl) ∧
      historyTopics hl = .ok tl ∧
      topicOfA afs ∈ tl ∧
      (pyTruthy (topicOfA afs) = true →
        ∃ nl, getItem r.state "niches" = .ok (.jarr nl) ∧
          pyMem (topicOfA afs) nl = true) := by
  cases hr : run gen now (mkStateJ hs ns prefs) u with
  | error e =>
    rw [hr] at hok
    simp [isOkE] at hok
  | ok r =>
  refine ⟨r, rfl, ?_⟩
  obtain ⟨afs0, hiu, hana, hstate, hfile, tl, htl⟩ := run_ok_inv gen now u hs ns prefs r hr
  refine ⟨dictSet afs0 "user_input" (.jstr u), hana, ?_⟩
  refine ⟨lastN 3 (hs ++ [turnOf now (dictSet afs0 "user_input" (.jstr u))]), tl,
    by rw [hstate]; exact getItem_mk_history _ _ _, htl, ?_, ?_⟩
  · rw [show (3 : Nat) = 2 + 1 from rfl, lastN_succ_append] at htl
    obtain ⟨tl₀, v, rfl, hv⟩ := historyTopics_append_last _ _ _ htl
    rw [topicOfTurn_turnOf] at hv
    injection hv with hv
    rw [show topicOfA (dictSet afs0 "user_input" (.jstr u)) =
      dictFindD (dictSet afs0 "user_input" (.jstr u)) "topic" (.jstr "") from rfl, hv]
    exact List.mem_append_right _ (List.mem_singleton.mpr rfl)
  · intro htr
    refine ⟨nstep ns (dictSet afs0 "user_input" (.jstr u)),
      by rw [hstate]; exact getItem_mk_niches _ _ _, ?_⟩
    unfold nstep
    cases hm : pyMem (topicOfA (dictSet afs0 "user_input" (.jstr u))) ns with
    | true =>
      simp only [hm, Bool.not_true, Bool.and_false, if_false]
      exact hm
    | false =>
      simp only [htr, hm, Bool.not_false, Bool.and_true, if_true]
      exact pyMem_append_self _ ns

/-- C6 witness: a request whose response parses to a concrete intent. -/
theorem C6_witness :
    ∃ r, run (fun _ => "\x7b\"topic\": \"cats\", \"tone\": \"fun\", \"constraints\": \"\"\x7d")
      "2024-01-01T00:00:00" (mkStateJ [] [] defaultPrefs) "hi" = .ok r ∧
    ∃ afs, r.analysis = .jobj afs ∧
    ∃ hl tl, getItem r.state "history" = .ok (.jarr hl) ∧
      historyTopics hl = .ok tl ∧
      topicOfA afs ∈ tl ∧
      (pyTruthy (topicOfA afs) = true →
        ∃ nl, getItem r.state "niches" = .ok (.jarr nl) ∧
          pyMem (topicOfA afs) nl = true) :=
  C6_planner_sees_current_intent
    (fun _ => "\x7b\"topic\": \"cats\", \"tone\": \"fun\", \"constraints\": \"\"\x7d")
    "2024-01-01T00:00:00" "hi" [] [] defaultPrefs rfl

/-- C7 (amended): every Turn appended by a completed request has the form
`{timestamp: now, analysis: a, user_input: rawInput}` where `a` is the
extracted Intent dict augmented with a `user_input` field equal to the raw
input (the exact dict passed downstream) — not the bare three-field
record. -/
theorem C7_turn_shape (gen : String → String) (now u : String)
    (hs ns : List JValue) (prefs : JValue)
    (hok : isOkE (run gen now (mkStateJ hs ns prefs) u) = true) :
    ∃ r, run gen now (mkStateJ hs ns prefs) u = .ok r ∧
    ∃ afs0, input_understanding gen u = .jobj afs0 ∧
      r.analysis = .jobj (dictSet afs0 "user_input" (.jstr u)) ∧
    ∃ hl₀, getItem r.state "history" =
      .ok (.jarr (hl₀ ++ [.jobj [("timestamp", .jstr now), ("analysis", r.analysis),
        ("user_input", .jstr u)]])) := by
  cases hr : run gen now (mkStateJ hs ns prefs) u with
  | error e =>
    rw [hr] at hok
    simp [isOkE] at hok
  | ok r =>
  refine ⟨r, rfl, ?_⟩
  obtain ⟨afs0, hiu, hana, hstate, hfile, tl, htl⟩ := run_ok_inv gen now u hs ns prefs r hr
  refine ⟨afs0, hiu, hana, lastN 2 hs, ?_⟩
  rw [hstate]
  rw [show getItem
    (mkStateJ (lastN 3 (hs ++ [turnOf now (dictSet afs0 "user_input" (.jstr u))]))
      (nstep ns (dictSet afs0 "user_input" (.jstr u))) prefs) "history" =
    .ok (.jarr (lastN 3 (hs ++ [turnOf now (dictSet afs0 "user_input" (.jstr u))])))
    from getItem_mk_history _ _ _]
  rw [show (3 : Nat) = 2 + 1 from rfl, lastN_succ_append]
  rw [show turnOf now (dictSet afs0 "user_input" (.jstr u)) =
    .jobj [("timestamp", .jstr now),
      ("analysis", .jobj (dictSet afs0 "user_input" (.jstr u))), ("user_input", .jstr u)] by
    unfold turnOf
    rw [dictFindD_set_self]]
  rw [hana]

/-- C7 witness: concrete request on the fresh state. -/
theorem C7_witness :
    ∃ r, run (fun _ => "oops") "2024-01-01T00:00:00" (mkStateJ [] [] defaultPrefs) "hi" = .ok r ∧
    ∃ afs0, input_understanding (fun _ => "oops") "hi" = .jobj afs0 ∧
      r.analysis = .jobj (dictSet afs0 "user_input" (.jstr "hi")) ∧
    ∃ hl₀, getItem r.state "history" =
      .ok (.jarr (hl₀ ++ [.jobj [("timestamp", .jstr "2024-01-01T00:00:00"),
        ("analysis", r.analysis), ("user_input", .jstr "hi")]])) :=
  C7_turn_shape (fun _ => "oops") "2024-01-01T00:00:00" "hi" [] [] defaultPrefs rfl

/-- C7 counterexample: the claim as stated is false. On a concrete request
the Intent produced is the three-field fallback, but the analysis embedded
in the appended Turn is that record plus a fourth `user_input` field, so it
is not exactly the three-field Intent record. -/
theorem C7_counterexample :
    input_understanding (fun _ => "oops") "write about cats" = fallbackIntent ∧
    (∃ r, run (fun _ => "oops") "2024-01-01T00:00:00" defaultStateJ "write about cats" = .ok r ∧
      getItem r.state "history" = .ok (.jarr [.jobj [("timestamp", .jstr "2024-01-01T00:00:00"),
        ("analysis", .jobj [("topic", .jstr "general"), ("tone", .jstr "neutral"),
          ("constraints", .jstr ""), ("user_input", .jstr "write about cats")]),
        ("user_input", .jstr "write about cats")]])) ∧
    JValue.jobj [("topic", .jstr "general"), ("tone", .jstr "neutral"),
      ("constraints", .jstr ""), ("user_input", .jstr "write about cats")] ≠ fallbackIntent := by
  refine ⟨rfl, ⟨_, rfl, rfl⟩, ?_⟩
  intro hcontra
  injection hcontra with hfields
  have hlen := congrArg List.length hfields
  exact absurd hlen (by decide)

/-- C8: an empty or whitespace-only input line is rejected before the
pipeline starts: the loop answers with a retry prompt, `run` is not
invoked, and neither the in-memory state nor the persisted file changes. -/
theorem C8_blank_input_rejected (gen : String → String) (now : String) (st : JValue)
    (file : FileState) (line : String) (h : ∀ c ∈ line.data, isPySpace c = true) :
    cli_step gen now st file line = .rejected st file := by
  unfold cli_step
  obtain ⟨h1, h2⟩ := pyLower_ne_sentinel line h
  rw [if_neg (not_or.mpr ⟨h1, h2⟩), if_pos (pyStrip_of_space line h)]

/-- C8 witness: a three-space line is rejected with the state untouched. -/
theorem C8_witness :
    cli_step (fun _ => "x") "2024-01-01T00:00:00" defaultStateJ (.doc defaultStateJ) "   " =
      .rejected defaultStateJ (.doc defaultStateJ) :=
  C8_blank_input_rejected (fun _ => "x") "2024-01-01T00:00:00" defaultStateJ
    (.doc defaultStateJ) "   " (by decide)

/-- C9 (amended): if at startup the persisted state file is missing or does
not contain valid JSON — the two cases the `except` clause catches, i.e.
exactly those where `load_state` returns None — the agent reinitializes the
state to the documented defaults and persists that default document,
without raising. (An existing but unreadable file raises instead; see the
counterexample.) -/
theorem C9_reinit_on_missing_or_invalid (f : FileState) (h : load_state f = .ok none) :
    agent_init f = .ok (defaultStateJ, .doc defaultStateJ) := by
  unfold agent_init
  rw [h]
  rfl

/-- C9 witness: a missing state file. -/
theorem C9_witness : agent_init FileState.missing = .ok (defaultStateJ, .doc defaultStateJ) :=
  C9_reinit_on_missing_or_invalid FileState.missing rfl

/-- C9 counterexample: an unreadable state file (open raises
PermissionError, which `load_state`'s `except (FileNotFoundError,
json.JSONDecodeError)` clause does not catch) propagates to the caller
instead of being recovered into the defaults. -/
theorem C9_counterexample : agent_init FileState.unreadable = .error "PermissionError" := rfl

/-- C10: when intent extraction falls back, the fallback is folded into the
persistent state exactly like an extracted intent: after the run, topic
"general" is in the niches, the last history turn's analysis has topic
"general", and the state was persisted. -/
theorem C10_fallback_folded_into_state (gen : String → String) (now u : String)
    (h : json_loads (pyStrip (gen (intent_prompt u))) = none) :
    ∃ r, run gen now defaultStateJ u = .ok r ∧
      r.file = .doc r.state ∧
      (∃ nl, getItem r.state "niches" = .ok (.jarr nl) ∧ JValue.jstr "general" ∈ nl) ∧
      ∃ hl t, getItem r.state "history" = .ok (.jarr hl) ∧ hl.getLast? = some t ∧
        ∃ a, getItem t "analysis" = .ok a ∧
          pyGet a "topic" (.jstr "") = .ok (.jstr "general") := by
  have hiu : input_understanding gen u = fallbackIntent := by
    unfold input_understanding
    rw [h]
  unfold run
  rw [hiu]
  exact ⟨_, rfl, rfl, ⟨_, rfl, List.mem_singleton.mpr rfl⟩, _, _, rfl, rfl, _, rfl, rfl⟩

/-- C10 witness at a concrete non-JSON response. -/
theorem C10_witness :
    ∃ r, run (fun _ => "oops") "2024-01-01T00:00:00" defaultStateJ "hi" = .ok r ∧
      r.file = .doc r.state ∧
      (∃ nl, getItem r.state "niches" = .ok (.jarr nl) ∧ JValue.jstr "general" ∈ nl) ∧
      ∃ hl t, getItem r.state "history" = .ok (.jarr hl) ∧ hl.getLast? = some t ∧
        ∃ a, getItem t "analysis" = .ok a ∧
          pyGet a "topic" (.jstr "") = .ok (.jstr "general") :=
  C10_fallback_folded_into_state (fun _ => "oops") "2024-01-01T00:00:00" "hi" rfl

end BlogSpark
